import Mathlib

/-!
Verification of the pii-search repository core algorithms.

Shallow embedding of:
* the span merger of the cascaded detector
  (src/deep_search_engine/src/cascaded_pii_detector.py),
* the confidence fusion and validation logic of the context engine
  (src/context_search_engine/src/engine.py, models.py),
* the keyword fallback of the LLM response parser
  (src/context_search_engine/src/ollama_client.py).

Python ints are modelled as Int or Nat, Python floats as rationals.
-/

namespace PiiSearch

/-! ### Span model

`PIIClassificationResult` from src/deep_search_engine/src/models.py, restricted
to the fields the merger reads and writes: position (start/end), probability
and sources, plus the type tag.  `end` is a Lean keyword, so the field is
called `stop`. -/

structure Span where
  start : Int
  stop : Int
  typ : String
  probability : ℚ
  sources : List String
  deriving DecidableEq, Repr, Inhabited

/-- Overlap test of `_merge_and_deduplicate_results` (cascaded_pii_detector.py,
lines 459-460): `result.position.start < existing.position.end and
result.position.end > existing.position.start`. -/
def overlaps (result existing : Span) : Prop :=
  result.start < existing.stop ∧ existing.start < result.stop

instance (a b : Span) : Decidable (overlaps a b) := by
  unfold overlaps; infer_instance

lemma overlaps_comm {a b : Span} : overlaps a b ↔ overlaps b a := by
  unfold overlaps; exact And.comm

/-- `list(set(existing.sources + result.sources))` (lines 467 and 470).
Python set ordering is unspecified; the model keeps first occurrences.  The
underlying set of strings is the same. -/
def mergeSources (existing result : Span) : List String :=
  (existing.sources ++ result.sources).dedup

/-- One pass of the inner loop of `_merge_and_deduplicate_results`
(lines 455-476): walk the accumulator, and at the FIRST overlapping placed
span either replace it (incoming probability strictly higher) or keep it
(otherwise, ties included), unioning sources either way; if no placed span
overlaps, append the incoming span at the end. -/
def insertMerged (result : Span) : List Span → List Span
  | [] => [result]
  | existing :: rest =>
    if overlaps result existing then
      if existing.probability < result.probability then
        { result with sources := mergeSources existing result } :: rest
      else
        { existing with sources := mergeSources existing result } :: rest
    else
      existing :: insertMerged result rest

/-- Sort key of line 452: `key=lambda r: (r.position.start, r.position.end)`. -/
def keyLe (a b : Span) : Prop :=
  a.start < b.start ∨ (a.start = b.start ∧ a.stop ≤ b.stop)

instance (a b : Span) : Decidable (keyLe a b) := by
  unfold keyLe; infer_instance

/-- Stable insertion used to model Python `list.sort` (which is stable):
an element goes in front of the first element it is `keyLe`-below-or-equal,
so elements with equal keys keep their encounter order. -/
def insertSorted (x : Span) : List Span → List Span
  | [] => [x]
  | y :: ys => if keyLe x y then x :: y :: ys else y :: insertSorted x ys

/-- `results.sort(key=lambda r: (r.position.start, r.position.end))`. -/
def sortSpans (l : List Span) : List Span :=
  l.foldr insertSorted []

/-- `_merge_and_deduplicate_results` (cascaded_pii_detector.py lines 446-478),
value-level semantics (the returned list).  The in-place effects on the
callers list are modelled separately below. -/
def merge_and_deduplicate_results (results : List Span) : List Span :=
  if results = [] then results
  else (sortSpans results).foldl (fun merged result => insertMerged result merged) []

/-! ### Basic facts about the sort -/

lemma keyLe_total (a b : Span) : keyLe a b ∨ keyLe b a := by
  unfold keyLe
  rcases lt_trichotomy a.start b.start with h | h | h
  · exact Or.inl (Or.inl h)
  · rcases le_total a.stop b.stop with h2 | h2
    · exact Or.inl (Or.inr ⟨h, h2⟩)
    · exact Or.inr (Or.inr ⟨h.symm, h2⟩)
  · exact Or.inr (Or.inl h)

lemma keyLe_trans {a b c : Span} (h1 : keyLe a b) (h2 : keyLe b c) : keyLe a c := by
  unfold keyLe at *
  rcases h1 with h1 | ⟨h1, h1'⟩ <;> rcases h2 with h2 | ⟨h2, h2'⟩
  · exact Or.inl (h1.trans h2)
  · exact Or.inl (h2 ▸ h1)
  · exact Or.inl (h1 ▸ h2)
  · exact Or.inr ⟨h1.trans h2, h1'.trans h2'⟩

lemma mem_insertSorted {x z : Span} {l : List Span} :
    z ∈ insertSorted x l → z = x ∨ z ∈ l := by
  induction l with
  | nil => intro h; simp [insertSorted] at h; exact Or.inl h
  | cons y ys ih =>
    intro h
    by_cases hk : keyLe x y
    · simp only [insertSorted, if_pos hk] at h
      rcases List.mem_cons.mp h with h | h
      · exact Or.inl h
      · exact Or.inr h
    · simp only [insertSorted, if_neg hk] at h
      rcases List.mem_cons.mp h with h | h
      · exact Or.inr (by simp [h])
      · rcases ih h with h' | h'
        · exact Or.inl h'
        · exact Or.inr (by simp [h'])

lemma insertSorted_pairwise {x : Span} {l : List Span}
    (h : l.Pairwise keyLe) : (insertSorted x l).Pairwise keyLe := by
  induction l with
  | nil => simp [insertSorted]
  | cons y ys ih =>
    rcases List.pairwise_cons.mp h with ⟨hy, hys⟩
    by_cases hk : keyLe x y
    · simp only [insertSorted, if_pos hk]
      refine List.pairwise_cons.mpr ⟨?_, h⟩
      intro z hz
      rcases List.mem_cons.mp hz with hz | hz
      · exact hz ▸ hk
      · exact keyLe_trans hk (hy z hz)
    · simp only [insertSorted, if_neg hk]
      refine List.pairwise_cons.mpr ⟨?_, ih hys⟩
      intro z hz
      rcases mem_insertSorted hz with hz | hz
      · subst hz
        rcases keyLe_total z y with h' | h'
        · exact absurd h' hk
        · exact h'
      · exact hy z hz

lemma sortSpans_pairwise (l : List Span) : (sortSpans l).Pairwise keyLe := by
  induction l with
  | nil => simp [sortSpans]
  | cons x xs ih => exact insertSorted_pairwise ih

lemma mem_insertSorted_self (x : Span) (l : List Span) : x ∈ insertSorted x l := by
  induction l with
  | nil => simp [insertSorted]
  | cons y ys ih =>
    by_cases hk : keyLe x y
    · simp [insertSorted, if_pos hk]
    · simp only [insertSorted, if_neg hk]
      exact List.mem_cons_of_mem y ih

lemma mem_insertSorted_of_mem (x : Span) {a : Span} {l : List Span} (h : a ∈ l) :
    a ∈ insertSorted x l := by
  induction l with
  | nil => simp at h
  | cons y ys ih =>
    by_cases hk : keyLe x y
    · simp only [insertSorted, if_pos hk]
      exact List.mem_cons_of_mem x h
    · simp only [insertSorted, if_neg hk]
      rcases List.mem_cons.mp h with h' | h'
      · exact h' ▸ List.mem_cons_self y _
      · exact List.mem_cons_of_mem y (ih h')

lemma mem_sortSpans {a : Span} {l : List Span} : a ∈ sortSpans l ↔ a ∈ l := by
  induction l with
  | nil => simp [sortSpans]
  | cons x xs ih =>
    constructor
    · intro h
      rcases mem_insertSorted h with h' | h'
      · simp [h']
      · simp [ih.mp h']
    · intro h
      rcases List.mem_cons.mp h with h' | h'
      · exact h' ▸ mem_insertSorted_self a (sortSpans xs)
      · exact mem_insertSorted_of_mem x (ih.mpr h')

/-! ### Non-overlap invariant of the merge loop (claim C1) -/

/-- Elements of `insertMerged result acc` carry the positions of `result` or
of some element of `acc` (source unioning never changes positions). -/
lemma mem_insertMerged_pos {r : Span} {acc : List Span} :
    ∀ y ∈ insertMerged r acc,
      (y.start = r.start ∧ y.stop = r.stop) ∨
        ∃ m ∈ acc, y.start = m.start ∧ y.stop = m.stop := by
  induction acc with
  | nil =>
    intro y hy
    simp only [insertMerged, List.mem_singleton] at hy
    exact Or.inl (by subst hy; exact ⟨rfl, rfl⟩)
  | cons m rest ih =>
    intro y hy
    by_cases hov : overlaps r m
    · by_cases hp : m.probability < r.probability
      · simp only [insertMerged, if_pos hov, if_pos hp] at hy
        rcases List.mem_cons.mp hy with h | h
        · exact Or.inl (by subst h; exact ⟨rfl, rfl⟩)
        · exact Or.inr ⟨y, List.mem_cons_of_mem m h, rfl, rfl⟩
      · simp only [insertMerged, if_pos hov, if_neg hp] at hy
        rcases List.mem_cons.mp hy with h | h
        · exact Or.inr ⟨m, List.mem_cons_self m rest, by subst h; exact ⟨rfl, rfl⟩⟩
        · exact Or.inr ⟨y, List.mem_cons_of_mem m h, rfl, rfl⟩
    · simp only [insertMerged, if_neg hov] at hy
      rcases List.mem_cons.mp hy with h | h
      · exact Or.inr ⟨m, List.mem_cons_self m rest, by subst h; exact ⟨rfl, rfl⟩⟩
      · rcases ih y h with h' | ⟨m', hm', h'⟩
        · exact Or.inl h'
        · exact Or.inr ⟨m', List.mem_cons_of_mem m hm', h'⟩

/-- Key invariant step: if the accumulator is pairwise non-overlapping and
every accumulated span starts no later than the incoming span (guaranteed by
the pre-sort), then the accumulator stays pairwise non-overlapping. -/
lemma insertMerged_pairwise {r : Span} {acc : List Span}
    (hpw : acc.Pairwise (fun a b => ¬ overlaps a b))
    (hle : ∀ m ∈ acc, m.start ≤ r.start) :
    (insertMerged r acc).Pairwise (fun a b => ¬ overlaps a b) := by
  induction acc with
  | nil => simp [insertMerged]
  | cons m rest ih =>
    rcases List.pairwise_cons.mp hpw with ⟨hm, hrest⟩
    by_cases hov : overlaps r m
    · by_cases hp : m.probability < r.probability
      · simp only [insertMerged, if_pos hov, if_pos hp]
        refine List.pairwise_cons.mpr ⟨?_, hrest⟩
        intro x hx hovx
        -- r overlaps both m and x, all of m, x start at or before r.start:
        -- then m and x overlap each other, contradiction.
        have hxle : x.start ≤ r.start := hle x (List.mem_cons_of_mem m hx)
        have hmle : m.start ≤ r.start := hle m (List.mem_cons_self m rest)
        rcases hov with ⟨hov1, hov2⟩
        rcases hovx with ⟨hx1, hx2⟩
        exact hm x hx ⟨lt_of_le_of_lt hmle hx1, lt_of_le_of_lt hxle hov1⟩
      · simp only [insertMerged, if_pos hov, if_neg hp]
        refine List.pairwise_cons.mpr ⟨?_, hrest⟩
        intro x hx hovx
        exact hm x hx hovx
    · simp only [insertMerged, if_neg hov]
      refine List.pairwise_cons.mpr ⟨?_, ih hrest (fun m' hm' => hle m' (List.mem_cons_of_mem m hm'))⟩
      intro y hy hovy
      rcases mem_insertMerged_pos y hy with ⟨h1, h2⟩ | ⟨m', hm', h1, h2⟩
      · rcases hovy with ⟨hy1, hy2⟩
        rw [h2] at hy1
        rw [h1] at hy2
        exact hov ⟨hy2, hy1⟩
      · rcases hovy with ⟨hy1, hy2⟩
        rw [h2] at hy1
        rw [h1] at hy2
        exact hm m' hm' ⟨hy1, hy2⟩

lemma foldl_insertMerged_pairwise :
    ∀ (l acc : List Span),
      acc.Pairwise (fun a b => ¬ overlaps a b) →
      (∀ m ∈ acc, ∀ r ∈ l, m.start ≤ r.start) →
      l.Pairwise (fun a b => a.start ≤ b.start) →
      (l.foldl (fun merged result => insertMerged result merged) acc).Pairwise
        (fun a b => ¬ overlaps a b) := by
  intro l
  induction l with
  | nil => intro acc h _ _; simpa using h
  | cons r l' ih =>
    intro acc hacc hle hl
    rcases List.pairwise_cons.mp hl with ⟨hr, hl'⟩
    simp only [List.foldl_cons]
    refine ih (insertMerged r acc) ?_ ?_ hl'
    · exact insertMerged_pairwise hacc (fun m hm => hle m hm r (List.mem_cons_self r l'))
    · intro m' hm' r' hr'
      rcases mem_insertMerged_pos m' hm' with ⟨h1, _⟩ | ⟨m, hm, h1, _⟩
      · rw [h1]; exact hr r' hr'
      · rw [h1]; exact hle m hm r' (List.mem_cons_of_mem r hr')

lemma merge_pairwise (results : List Span) :
    (merge_and_deduplicate_results results).Pairwise (fun a b => ¬ overlaps a b) := by
  unfold merge_and_deduplicate_results
  by_cases h : results = []
  · simp [h]
  · rw [if_neg h]
    refine foldl_insertMerged_pairwise (sortSpans results) [] List.Pairwise.nil (by simp) ?_
    exact (sortSpans_pairwise results).imp
      (fun hab => hab.elim le_of_lt (fun h2 => le_of_eq h2.1))

/-- C1: for every input list of spans, the output list of the span merger is
pairwise non-overlapping: no two distinct output spans a, b satisfy
a.start < b.end AND b.start < a.end. -/
theorem merger_output_nonoverlapping (results : List Span) (i j : Nat)
    (hi : i < (merge_and_deduplicate_results results).length)
    (hj : j < (merge_and_deduplicate_results results).length)
    (hij : i ≠ j) :
    ¬ (((merge_and_deduplicate_results results).get ⟨i, hi⟩).start <
         ((merge_and_deduplicate_results results).get ⟨j, hj⟩).stop ∧
       ((merge_and_deduplicate_results results).get ⟨j, hj⟩).start <
         ((merge_and_deduplicate_results results).get ⟨i, hi⟩).stop) := by
  have hpw := merge_pairwise results
  rw [List.pairwise_iff_get] at hpw
  rcases Nat.lt_or_ge i j with h | h
  · exact hpw ⟨i, hi⟩ ⟨j, hj⟩ h
  · have hj' : j < i := lt_of_le_of_ne h (Ne.symm hij)
    intro hc
    exact hpw ⟨j, hj⟩ ⟨i, hi⟩ hj' ⟨hc.2, hc.1⟩

def c1wit : List Span :=
  [⟨0, 3, "email", mkRat 1 2, ["regex"]⟩, ⟨5, 8, "phone", mkRat 1 2, ["ner"]⟩]

/-- Witness for C1 at a concrete two-span input. -/
theorem merger_output_nonoverlapping_witness :
    ¬ (((merge_and_deduplicate_results c1wit).get ⟨0, by decide⟩).start <
         ((merge_and_deduplicate_results c1wit).get ⟨1, by decide⟩).stop ∧
       ((merge_and_deduplicate_results c1wit).get ⟨1, by decide⟩).start <
         ((merge_and_deduplicate_results c1wit).get ⟨0, by decide⟩).stop) :=
  merger_output_nonoverlapping c1wit 0 1 (by decide) (by decide) (by decide)

/-! ### Overlap resolution and tie-break (claim C4) -/

/-- C4: when the incoming span first overlaps a placed span, the span with the
strictly higher probability is kept and the sources are unioned; on equal
probabilities the first-placed span is kept (sources still unioned).  The
merge is a pure function of its input here, so repeated merges of the same
input agree definitionally. -/
theorem merger_overlap_resolution (r m : Span) (pre post : List Span)
    (hpre : ∀ x ∈ pre, ¬ overlaps r x) (hov : overlaps r m) :
    insertMerged r (pre ++ m :: post) =
      pre ++ (if m.probability < r.probability
              then { r with sources := mergeSources m r }
              else { m with sources := mergeSources m r }) :: post ∧
    ∀ s, s ∈ mergeSources m r ↔ s ∈ m.sources ∨ s ∈ r.sources := by
  constructor
  · induction pre with
    | nil =>
      simp only [List.nil_append, insertMerged, if_pos hov]
      by_cases hp : m.probability < r.probability
      · rw [if_pos hp, if_pos hp]
      · rw [if_neg hp, if_neg hp]
    | cons x xs ih =>
      have hx : ¬ overlaps r x := hpre x (List.mem_cons_self x xs)
      simp only [List.cons_append, insertMerged, if_neg hx]
      exact congrArg (x :: ·) (ih (fun y hy => hpre y (List.mem_cons_of_mem x hy)))
  · intro s
    simp [mergeSources, List.mem_dedup, List.mem_append]

def c4m : Span := ⟨0, 5, "name", mkRat 9 10, ["bert"]⟩

def c4r : Span := ⟨2, 8, "name", mkRat 9 10, ["ollama"]⟩

/-- Witness for C4: the equal-probability overlapping pair from the spec keeps
the first-placed span and unions sources. -/
theorem merger_overlap_resolution_witness :
    insertMerged c4r [c4m] = [⟨0, 5, "name", mkRat 9 10, ["bert", "ollama"]⟩] ∧
    ∀ s, s ∈ mergeSources c4m c4r ↔ s ∈ c4m.sources ∨ s ∈ c4r.sources := by
  have h := merger_overlap_resolution c4r c4m [] [] (by simp) (by decide)
  refine ⟨?_, h.2⟩
  have h1 := h.1
  simp only [List.nil_append] at h1
  rw [h1]
  decide

/-! ### Idempotence of the merge (claim C5)

The claim fails for degenerate spans (end < start, representable since
`Position.start` and `Position.end` are plain ints with no validation):
a degenerate span placed after a long span survives the long span being
replaced by a later higher-probability overlapping span, leaving the output
out of sorted order, so a second merge re-sorts it.  On well-formed spans
(start < end) idempotence holds. -/

def c5ex : List Span :=
  [⟨0, 10, "mixed", mkRat 1 2, ["bert"]⟩, ⟨3, 0, "mixed", mkRat 1 2, ["deberta"]⟩,
   ⟨4, 12, "mixed", mkRat 9 10, ["ollama"]⟩]

/-- C5 counterexample: merging twice differs from merging once on an input
containing a degenerate span. -/
theorem merge_not_idempotent_counterexample :
    merge_and_deduplicate_results (merge_and_deduplicate_results c5ex) ≠
      merge_and_deduplicate_results c5ex := by decide

/-- Separation: a ends at or before b starts. -/
def sep (a b : Span) : Prop := a.stop ≤ b.start

lemma insertMerged_sep {r : Span} {acc : List Span}
    (hpw : acc.Pairwise sep)
    (hle : ∀ m ∈ acc, m.start ≤ r.start)
    (hr : r.start < r.stop) :
    (insertMerged r acc).Pairwise sep := by
  induction acc with
  | nil => simp [insertMerged]
  | cons m rest ih =>
    rcases List.pairwise_cons.mp hpw with ⟨hm, hrest⟩
    by_cases hov : overlaps r m
    · by_cases hp : m.probability < r.probability
      · simp only [insertMerged, if_pos hov, if_pos hp]
        refine List.pairwise_cons.mpr ⟨?_, hrest⟩
        intro x hx
        exfalso
        have h1 : m.stop ≤ x.start := hm x hx
        have h2 : x.start ≤ r.start := hle x (List.mem_cons_of_mem m hx)
        exact absurd (hov.1.trans_le h1) (not_lt.mpr h2)
      · simp only [insertMerged, if_pos hov, if_neg hp]
        exact List.pairwise_cons.mpr ⟨fun x hx => hm x hx, hrest⟩
    · simp only [insertMerged, if_neg hov]
      refine List.pairwise_cons.mpr
        ⟨?_, ih hrest (fun m' hm' => hle m' (List.mem_cons_of_mem m hm'))⟩
      intro y hy
      have hmr : m.stop ≤ r.start := by
        by_contra hc
        exact hov ⟨not_le.mp hc, lt_of_le_of_lt (hle m (List.mem_cons_self m rest)) hr⟩
      rcases mem_insertMerged_pos y hy with ⟨h1, _⟩ | ⟨m', hm', h1, _⟩
      · show m.stop ≤ y.start
        rw [h1]; exact hmr
      · show m.stop ≤ y.start
        rw [h1]; exact hm m' hm'

lemma foldl_insertMerged_sep :
    ∀ (l acc : List Span),
      acc.Pairwise sep →
      (∀ m ∈ acc, m.start < m.stop) →
      (∀ m ∈ acc, ∀ r ∈ l, m.start ≤ r.start) →
      (∀ r ∈ l, r.start < r.stop) →
      l.Pairwise (fun a b => a.start ≤ b.start) →
      ((l.foldl (fun merged result => insertMerged result merged) acc).Pairwise sep ∧
        ∀ m ∈ l.foldl (fun merged result => insertMerged result merged) acc,
          m.start < m.stop) := by
  intro l
  induction l with
  | nil => intro acc h1 h2 _ _ _; exact ⟨h1, h2⟩
  | cons r l' ih =>
    intro acc hacc hne hle hlne hl
    rcases List.pairwise_cons.mp hl with ⟨hr, hl'⟩
    have hrne : r.start < r.stop := hlne r (List.mem_cons_self r l')
    simp only [List.foldl_cons]
    refine ih (insertMerged r acc) ?_ ?_ ?_ (fun x hx => hlne x (List.mem_cons_of_mem r hx)) hl'
    · exact insertMerged_sep hacc (fun m hm => hle m hm r (List.mem_cons_self r l')) hrne
    · intro m' hm'
      rcases mem_insertMerged_pos m' hm' with ⟨h1, h2⟩ | ⟨m, hm, h1, h2⟩
      · rw [h1, h2]; exact hrne
      · rw [h1, h2]; exact hne m hm
    · intro m' hm' r' hr'
      rcases mem_insertMerged_pos m' hm' with ⟨h1, _⟩ | ⟨m, hm, h1, _⟩
      · rw [h1]; exact hr r' hr'
      · rw [h1]; exact hle m hm r' (List.mem_cons_of_mem r hr')

lemma merge_sep (results : List Span) (h : ∀ s ∈ results, s.start < s.stop) :
    (merge_and_deduplicate_results results).Pairwise sep ∧
      ∀ m ∈ merge_and_deduplicate_results results, m.start < m.stop := by
  unfold merge_and_deduplicate_results
  by_cases hnil : results = []
  · simp [hnil]
  · rw [if_neg hnil]
    refine foldl_insertMerged_sep (sortSpans results) [] List.Pairwise.nil (by simp)
      (by simp) ?_ ?_
    · intro r hr; exact h r (mem_sortSpans.mp hr)
    · exact (sortSpans_pairwise results).imp
        (fun hab => hab.elim le_of_lt (fun h2 => le_of_eq h2.1))

lemma sortSpans_eq_self {l : List Span} (h : l.Pairwise keyLe) : sortSpans l = l := by
  induction l with
  | nil => rfl
  | cons x xs ih =>
    rcases List.pairwise_cons.mp h with ⟨hx, hxs⟩
    show insertSorted x (sortSpans xs) = x :: xs
    rw [ih hxs]
    cases xs with
    | nil => rfl
    | cons y ys => simp [insertSorted, if_pos (hx y (List.mem_cons_self y ys))]

lemma insertMerged_of_no_overlap {r : Span} {acc : List Span}
    (h : ∀ m ∈ acc, ¬ overlaps r m) : insertMerged r acc = acc ++ [r] := by
  induction acc with
  | nil => rfl
  | cons m rest ih =>
    simp only [insertMerged, if_neg (h m (List.mem_cons_self m rest))]
    rw [ih (fun m' hm' => h m' (List.mem_cons_of_mem m hm'))]
    rfl

lemma foldl_insertMerged_eq_append :
    ∀ (l acc : List Span),
      (∀ m ∈ acc, ∀ r ∈ l, sep m r) →
      l.Pairwise sep →
      l.foldl (fun merged result => insertMerged result merged) acc = acc ++ l := by
  intro l
  induction l with
  | nil => intro acc _ _; simp
  | cons r l' ih =>
    intro acc hsep hl
    rcases List.pairwise_cons.mp hl with ⟨hr, hl'⟩
    simp only [List.foldl_cons]
    have heq : insertMerged r acc = acc ++ [r] :=
      insertMerged_of_no_overlap (fun m hm => by
        have hs := hsep m hm r (List.mem_cons_self r l')
        intro hc
        exact absurd hc.1 (not_lt.mpr hs))
    rw [heq]
    have harg : ∀ m ∈ acc ++ [r], ∀ r' ∈ l', sep m r' := by
      intro m hm r' hr'
      rcases List.mem_append.mp hm with hm | hm
      · exact hsep m hm r' (List.mem_cons_of_mem r hr')
      · rw [List.mem_singleton.mp hm]
        exact hr r' hr'
    rw [ih (acc ++ [r]) harg hl']
    simp

/-- C5 amended: the merger is idempotent on every input list of well-formed
spans (each span with start < end, the invariant of the Span data model). -/
theorem merge_idempotent_of_wellformed (results : List Span)
    (h : ∀ s ∈ results, s.start < s.stop) :
    merge_and_deduplicate_results (merge_and_deduplicate_results results) =
      merge_and_deduplicate_results results := by
  rcases merge_sep results h with ⟨hsep, hne⟩
  set M := merge_and_deduplicate_results results with hM
  have hkey : M.Pairwise keyLe := by
    refine hsep.imp_of_mem ?_
    intro a b ha hb hab
    exact Or.inl (lt_of_lt_of_le (hne a ha) hab)
  unfold merge_and_deduplicate_results
  by_cases hMnil : M = []
  · simp [hMnil]
  · rw [if_neg hMnil, sortSpans_eq_self hkey,
      foldl_insertMerged_eq_append M [] (by simp) hsep]
    simp

def c5wit : List Span :=
  [⟨0, 5, "name", mkRat 9 10, ["bert"]⟩, ⟨2, 8, "name", mkRat 3 5, ["ollama"]⟩]

/-- Witness for the amended C5 at a concrete well-formed input. -/
theorem merge_idempotent_of_wellformed_witness :
    merge_and_deduplicate_results (merge_and_deduplicate_results c5wit) =
      merge_and_deduplicate_results c5wit :=
  merge_idempotent_of_wellformed c5wit (by decide)

/-! ### Frame behaviour of the merge call (claim C8)

`_merge_and_deduplicate_results` is not free of effects on its argument:
line 452 sorts the callers list in place (`results.sort(...)`) and the loop
mutates the `sources` attribute of span objects aliased by the callers list
(lines 467 and 470).  The model below tracks object identity: the sorted
list is the object store, spans are addressed by their index in it, and the
call returns the pair (callers list contents after the call, returned merged
list). -/

def dSpan : Span := ⟨0, 0, "", 0, []⟩

/-- In-place update of the sources of the object at index k. -/
def modifySources : List Span → Nat → List String → List Span
  | [], _, _ => []
  | s :: rest, 0, src => { s with sources := src } :: rest
  | s :: rest, Nat.succ k, src => s :: modifySources rest k src

/-- The inner loop of the merge, on object indices: `k` is the incoming span,
the accumulator holds indices of placed spans, and source mutations go
through the store. -/
def insertMergedIds (store : List Span) (k : Nat) : List Nat → List Nat × List Span
  | [] => ([k], store)
  | j :: rest =>
    if overlaps (store.getD k dSpan) (store.getD j dSpan) then
      if (store.getD j dSpan).probability < (store.getD k dSpan).probability then
        (k :: rest,
          modifySources store k (mergeSources (store.getD j dSpan) (store.getD k dSpan)))
      else
        (j :: rest,
          modifySources store j (mergeSources (store.getD j dSpan) (store.getD k dSpan)))
    else
      (j :: (insertMergedIds store k rest).1, (insertMergedIds store k rest).2)

/-- The full call `_merge_and_deduplicate_results(results)` including its
effect on the callers list: first component is the callers list after the
call, second the returned merged list. -/
def merge_call (results : List Span) : List Span × List Span :=
  if results = [] then (results, results)
  else
    let store0 := sortSpans results
    let final := (List.range store0.length).foldl
      (fun (st : List Nat × List Span) k => insertMergedIds st.2 k st.1) ([], store0)
    (final.2, final.1.map (fun j => final.2.getD j dSpan))

def c8ex : List Span :=
  [⟨5, 10, "phone", mkRat 1 2, ["regex"]⟩, ⟨0, 3, "email", mkRat 1 2, ["ner"]⟩]

/-- C8 counterexample: the call modifies the callers list (it is sorted in
place), so the merger is not free of effects on its input. -/
theorem merger_mutates_input_list : (merge_call c8ex).1 ≠ c8ex := by decide

/-- The fields of a span other than its sources. -/
def spanCore (s : Span) : Int × Int × String × ℚ := (s.start, s.stop, s.typ, s.probability)

lemma map_spanCore_modifySources (st : List Span) (k : Nat) (src : List String) :
    (modifySources st k src).map spanCore = st.map spanCore := by
  induction st generalizing k with
  | nil => rfl
  | cons s rest ih =>
    cases k with
    | zero => rfl
    | succ k' => simp only [modifySources, List.map_cons, ih]

lemma map_spanCore_insertMergedIds (store : List Span) (k : Nat) (acc : List Nat) :
    ((insertMergedIds store k acc).2).map spanCore = store.map spanCore := by
  induction acc with
  | nil => rfl
  | cons j rest ih =>
    simp only [insertMergedIds]
    by_cases hov : overlaps (store.getD k dSpan) (store.getD j dSpan)
    · rw [if_pos hov]
      by_cases hp : (store.getD j dSpan).probability < (store.getD k dSpan).probability
      · rw [if_pos hp]; exact map_spanCore_modifySources _ _ _
      · rw [if_neg hp]; exact map_spanCore_modifySources _ _ _
    · rw [if_neg hov]; exact ih

lemma map_spanCore_foldl (l : List Nat) :
    ∀ (st : List Nat × List Span),
      ((l.foldl (fun st k => insertMergedIds st.2 k st.1) st).2).map spanCore
        = st.2.map spanCore := by
  induction l with
  | nil => intro st; rfl
  | cons k l' ih =>
    intro st
    simp only [List.foldl_cons]
    rw [ih (insertMergedIds st.2 k st.1)]
    exact map_spanCore_insertMergedIds st.2 k st.1

/-- C8 amended: the merger is a deterministic, total function of its input,
but it does modify the callers list: after the call that list holds the input
spans stably sorted by (start, end), with text, positions and probabilities
unchanged and only the sources fields possibly rewritten. -/
theorem merger_call_sorts_input_in_place (results : List Span) :
    (merge_call results).1.map spanCore = (sortSpans results).map spanCore := by
  unfold merge_call
  by_cases h : results = []
  · subst h; rfl
  · rw [if_neg h]
    exact map_spanCore_foldl _ _

/-! ### Parallel detection entry point (claim C6)

`detect_pii_parallel` (cascaded_pii_detector.py lines 127-217) gathers the
three detector tasks with `asyncio.gather(..., return_exceptions=True)`.
Each task outcome is a parameter of the model: either a raised exception
(recorded as a failed status and excluded from the combined results) or a
list of spans.  The detector adapters additionally catch their own errors
and return an empty list (lines 227-269, 266-269), the second failure shape.
The uninitialized guard of line 139-140 raises. -/

structure ParallelCombined where
  results : List Span
  model_summary : List (String × String)
  total_items : Nat
  deriving DecidableEq, Repr

def spansOf (outcome : Except String (List Span)) : List Span :=
  match outcome with
  | Except.ok l => l
  | Except.error _ => []

def statusOf (outcome : Except String (List Span)) : String :=
  match outcome with
  | Except.ok _ => "success"
  | Except.error _ => "failed"

def detect_pii_parallel (is_initialized : Bool)
    (bert deberta ollama : Except String (List Span)) :
    Except String ParallelCombined :=
  if is_initialized = false then
    Except.error "Cascaded PII Detector not initialized"
  else
    let all_results := spansOf bert ++ spansOf deberta ++ spansOf ollama
    let combined_results := merge_and_deduplicate_results all_results
    Except.ok
      { results := combined_results,
        model_summary :=
          [("multilingual_bert", statusOf bert), ("deberta_v3", statusOf deberta),
           ("ollama", statusOf ollama)],
        total_items := combined_results.length }

/-- A detector failure: either the task raised (gather records the exception)
or the adapter caught its own error internally and returned no spans. -/
def detectorFailed (outcome : Except String (List Span)) : Prop :=
  (∃ e, outcome = Except.error e) ∨ outcome = Except.ok []

/-- C6: if every detector fails, the parallel entry point on an initialized
detector returns normally with a combined result of zero items; detector
failures never surface as an error to the caller. -/
theorem parallel_detection_graceful_on_total_failure
    (bert deberta ollama : Except String (List Span))
    (h1 : detectorFailed bert) (h2 : detectorFailed deberta)
    (h3 : detectorFailed ollama) :
    ∃ c, detect_pii_parallel true bert deberta ollama = Except.ok c ∧
      c.results = [] ∧ c.total_items = 0 := by
  have hb : spansOf bert = [] := by
    rcases h1 with ⟨e, he⟩ | he <;> rw [he] <;> rfl
  have hd : spansOf deberta = [] := by
    rcases h2 with ⟨e, he⟩ | he <;> rw [he] <;> rfl
  have ho : spansOf ollama = [] := by
    rcases h3 with ⟨e, he⟩ | he <;> rw [he] <;> rfl
  refine ⟨_, rfl, ?_, ?_⟩
  · show merge_and_deduplicate_results (spansOf bert ++ spansOf deberta ++ spansOf ollama) = []
    rw [hb, hd, ho]; rfl
  · show (merge_and_deduplicate_results (spansOf bert ++ spansOf deberta ++ spansOf ollama)).length = 0
    rw [hb, hd, ho]; rfl

/-- Witness for C6: all three detector tasks raised. -/
theorem parallel_detection_graceful_on_total_failure_witness :
    ∃ c, detect_pii_parallel true (Except.error "bert crashed")
        (Except.error "deberta crashed") (Except.error "ollama timeout") = Except.ok c ∧
      c.results = [] ∧ c.total_items = 0 :=
  parallel_detection_graceful_on_total_failure _ _ _
    (Or.inl ⟨"bert crashed", rfl⟩) (Or.inl ⟨"deberta crashed", rfl⟩)
    (Or.inl ⟨"ollama timeout", rfl⟩)

/-! ### Context search engine: signal fusion (claims C2, C3)

Embeds src/context_search_engine/src/engine.py.  Model backend responses are
Python dicts; the fields read by `_combine_analysis_results` are modelled as
a structure (the `.get` defaults of the code apply only to absent keys, which
the structure model does not represent).  Risk levels travel as their enum
string values; the numeric formatting of the log strings (`:.3f`) is
simplified to plain rational printing.  Rational constants are written with
`mkRat` so that concrete instances evaluate. -/

structure AnalysisDict where
  is_genuine_pii : Bool
  confidence : ℚ
  reason : String
  risk_level : String
  model : String
  cultural_context : Option String
  false_positive_indicators : List String
  privacy_implications : String
  deriving DecidableEq, Repr, Inhabited

structure ContextAnalysisResult where
  is_genuine_pii : Bool
  confidence : ℚ
  reason : String
  risk_level : String
  cultural_context : Option String
  false_positive_indicators : List String
  privacy_implications : String
  deriving DecidableEq, Repr, Inhabited

def formatReason (name reason : String) (confidence : ℚ) : String :=
  name ++ ": " ++ reason ++ " (confidence: " ++ toString confidence ++ ")"

/-- `_combine_analysis_results` (engine.py lines 474-542).  The sequence of
reassignments of the Python code is unfolded into the four cases of which
model results are present. -/
def combine_analysis_results (ollama_result huggingface_result : Option AnalysisDict) :
    ContextAnalysisResult :=
  match ollama_result, huggingface_result with
  | none, none =>
    -- neither block runs: the conservative defaults of lines 477-480 stand
    { is_genuine_pii := true, confidence := mkRat 1 2,
      reason := "No analysis available", risk_level := "medium",
      cultural_context := none, false_positive_indicators := [],
      privacy_implications := "" }
  | some o, none =>
    -- only the Ollama block (lines 483-490) runs
    { is_genuine_pii := o.is_genuine_pii, confidence := o.confidence,
      reason := formatReason "Ollama" o.reason o.confidence,
      risk_level := o.risk_level,
      cultural_context := o.cultural_context,
      false_positive_indicators := o.false_positive_indicators,
      privacy_implications := o.privacy_implications }
  | none, some h =>
    -- only HuggingFace: the conservative acceptance of lines 520-528
    let base : ContextAnalysisResult :=
      { is_genuine_pii := h.is_genuine_pii, confidence := h.confidence,
        reason := formatReason h.model h.reason h.confidence,
        risk_level := h.risk_level, cultural_context := none,
        false_positive_indicators := h.false_positive_indicators,
        privacy_implications := "" }
    if h.is_genuine_pii = true ∨ mkRat 3 10 < h.confidence then
      { base with is_genuine_pii := true, confidence := max h.confidence (mkRat 1 2) }
    else base
  | some o, some h =>
    -- both present: weighted blend toward the more confident model
    -- (lines 500-512) and the disagreement rule (lines 514-518)
    let disagree : Bool := o.is_genuine_pii != h.is_genuine_pii
    let g1 := if o.confidence < h.confidence then h.is_genuine_pii else o.is_genuine_pii
    let c1 := if o.confidence < h.confidence
              then h.confidence * mkRat 7 10 + o.confidence * mkRat 3 10
              else o.confidence * mkRat 7 10 + h.confidence * mkRat 3 10
    let risk1 := if o.confidence < h.confidence then h.risk_level else o.risk_level
    let reasonList :=
      [formatReason "Ollama" o.reason o.confidence,
       formatReason h.model h.reason h.confidence]
      ++ (if disagree then ["Models disagree - using conservative approach"] else [])
    { is_genuine_pii := if disagree then true else g1,
      confidence := if disagree then min c1 (mkRat 7 10) else c1,
      reason := String.intercalate " | " reasonList,
      risk_level := risk1,
      cultural_context := o.cultural_context,
      false_positive_indicators :=
        o.false_positive_indicators ++ h.false_positive_indicators,
      privacy_implications := o.privacy_implications }

/-- C2: when both model signals are present and they disagree on genuineness,
the fused verdict is genuine PII with confidence capped at 0.7, whatever the
two confidences are. -/
theorem combine_disagreement_conservative (o h : AnalysisDict)
    (hne : o.is_genuine_pii ≠ h.is_genuine_pii) :
    (combine_analysis_results (some o) (some h)).is_genuine_pii = true ∧
    (combine_analysis_results (some o) (some h)).confidence ≤ mkRat 7 10 := by
  have hb : (o.is_genuine_pii != h.is_genuine_pii) = true := by
    simpa using hne
  simp only [combine_analysis_results, hb, if_true]
  exact ⟨trivial, min_le_right _ _⟩

def c2o : AnalysisDict :=
  ⟨true, mkRat 9 10, "looks like a real name", "high", "", none, [], ""⟩

def c2h : AnalysisDict :=
  ⟨false, mkRat 9 10, "placeholder text", "low", "DistilBERT", none, [], ""⟩

/-- Witness for C2 at the disagreeing 0.9 / 0.9 pair from the spec. -/
theorem combine_disagreement_conservative_witness :
    (combine_analysis_results (some c2o) (some c2h)).is_genuine_pii = true ∧
    (combine_analysis_results (some c2o) (some c2h)).confidence ≤ mkRat 7 10 :=
  combine_disagreement_conservative c2o c2h (by decide)

/-- `_calculate_refined_probability` (engine.py lines 550-557). -/
def calculate_refined_probability (original_prob analysis_confidence : ℚ)
    (is_genuine : Bool) : ℚ :=
  if is_genuine = false then 0
  else min 1 (max 0 (original_prob * mkRat 2 5 + analysis_confidence * mkRat 3 5))

/-- C3: the refined probability is 0 when the fused verdict is non-PII and
the clamped weighted blend otherwise, and it always lies in [0, 1]. -/
theorem refined_probability_clamped (p c : ℚ) (g : Bool) :
    calculate_refined_probability p c g =
      (if g then min 1 (max 0 (p * mkRat 2 5 + c * mkRat 3 5)) else 0) ∧
    0 ≤ calculate_refined_probability p c g ∧
    calculate_refined_probability p c g ≤ 1 := by
  cases g with
  | false =>
    refine ⟨rfl, le_refl 0, ?_⟩
    show (0 : ℚ) ≤ 1
    norm_num
  | true =>
    refine ⟨rfl, ?_, ?_⟩
    · exact le_min (by norm_num) (le_max_left 0 _)
    · exact min_le_left 1 _

/-! ### Entity validation and search (claims C7, C10)

`_analyze_entity` (engine.py lines 270-311) is pure given the context
analysis outcome, so the model backends behind `_perform_context_analysis`
are abstracted as an oracle mapping each entity to either a result or a
raised exception.  `search` (engine.py lines 125-206) walks the previous
detections, skips entities whose analysis raised (lines 169-172) and keeps
exactly the validated refined entities. -/

inductive ConfLevel
  | high
  | medium
  | low
  deriving DecidableEq, Repr

/-- `_get_confidence_level` (engine.py lines 559-566). -/
def get_confidence_level (probability : ℚ) : ConfLevel :=
  if mkRat 9 10 ≤ probability then ConfLevel.high
  else if mkRat 7 10 ≤ probability then ConfLevel.medium
  else ConfLevel.low

structure Pos where
  start : Nat
  stop : Nat
  deriving DecidableEq, Repr

structure DetectedEntity where
  id : String
  text : String
  typ : String
  language : String
  position : Pos
  probability : ℚ
  confidence_level : ConfLevel
  sources : List String
  deriving DecidableEq, Repr

structure RefinedEntity where
  id : String
  text : String
  typ : String
  language : String
  position : Pos
  original_probability : ℚ
  refined_probability : ℚ
  confidence_level : ConfLevel
  sources : List String
  context : String
  analysis_result : ContextAnalysisResult
  is_validated : Bool
  deriving DecidableEq, Repr

/-- `_extract_context` (engine.py lines 544-548):
`text[max(0, start - window) : min(len(text), end + window)]`; natural
subtraction supplies the max with 0. -/
def extract_context (text : String) (start stop window : Nat) : String :=
  ((text.toList.take (min text.length (stop + window))).drop (start - window)).asString

/-- config.context_window_size (config.py line 37). -/
def context_window_size : Nat := 300

/-- `_analyze_entity` (engine.py lines 270-311), given the outcome of the
context analysis.  The 0.4 confidence floor is the literal of line 295. -/
def analyze_entity (text : String) (entity : DetectedEntity) (threshold : ℚ)
    (analysis_result : ContextAnalysisResult) : RefinedEntity :=
  let context := extract_context text entity.position.start entity.position.stop
    context_window_size
  let refined_probability := calculate_refined_probability entity.probability
    analysis_result.confidence analysis_result.is_genuine_pii
  let is_validated :=
    analysis_result.is_genuine_pii && decide (threshold ≤ refined_probability)
      && decide (mkRat 2 5 ≤ analysis_result.confidence)
  { id := entity.id, text := entity.text, typ := entity.typ,
    language := entity.language, position := entity.position,
    original_probability := entity.probability,
    refined_probability := refined_probability,
    confidence_level := get_confidence_level refined_probability,
    sources := entity.sources ++ ["context_analysis"],
    context := context, analysis_result := analysis_result,
    is_validated := is_validated }

structure Summary where
  totalItems : Nat
  validatedItems : Nat
  falsePositivesFiltered : Nat
  highRiskItems : Nat
  mediumRiskItems : Nat
  lowRiskItems : Nat
  averageConfidence : ℚ
  languageBreakdown : List (String × Nat)
  typeBreakdown : List (String × Nat)
  riskBreakdown : List (String × Nat)
  deriving DecidableEq, Repr

def bumpCount : List (String × Nat) → String → List (String × Nat)
  | [], k => [(k, 1)]
  | (k', v) :: t, k => if k' = k then (k', v + 1) :: t else (k', v) :: bumpCount t k

/-- Python `d[k] = d.get(k, 0) + 1` over an insertion-ordered dict. -/
def countBy (keys : List String) : List (String × Nat) :=
  keys.foldl bumpCount []

/-- Python `d.get(k, 0)`. -/
def getCount (m : List (String × Nat)) (k : String) : Nat :=
  match m.find? (fun p => p.1 == k) with
  | some p => p.2
  | none => 0

/-- `ContextSearchResponse.generate_summary` (models.py lines 96-147).  The
display-only float rounding of averageConfidence (`round(_, 3)`) is not
modelled. -/
def generate_summary (items : List RefinedEntity) : Summary :=
  if items = [] then
    { totalItems := 0, validatedItems := 0, falsePositivesFiltered := 0,
      highRiskItems := 0, mediumRiskItems := 0, lowRiskItems := 0,
      averageConfidence := 0, languageBreakdown := [], typeBreakdown := [],
      riskBreakdown := [] }
  else
    let validated_items := items.filter (fun item => item.is_validated)
    let false_positives := items.length - validated_items.length
    let avg_confidence : ℚ :=
      if validated_items = [] then 0
      else (validated_items.map (fun i => i.refined_probability)).sum
        / (validated_items.length : ℚ)
    let risk_breakdown :=
      countBy (validated_items.map (fun i => i.analysis_result.risk_level))
    let lang_breakdown := countBy (validated_items.map (fun i => i.language))
    let type_breakdown := countBy (validated_items.map (fun i => i.typ))
    { totalItems := validated_items.length,
      validatedItems := validated_items.length,
      falsePositivesFiltered := false_positives,
      highRiskItems := getCount risk_breakdown "high" + getCount risk_breakdown "critical",
      mediumRiskItems := getCount risk_breakdown "medium",
      lowRiskItems := getCount risk_breakdown "low" + getCount risk_breakdown "minimal",
      averageConfidence := avg_confidence,
      languageBreakdown := lang_breakdown,
      typeBreakdown := type_breakdown,
      riskBreakdown := risk_breakdown }

structure ContextSearchRequest where
  text : String
  previous_detections : List DetectedEntity
  confidence_threshold : ℚ

structure ContextSearchResponse where
  items : List RefinedEntity
  summary : Summary

/-- The entity loop of `search` (engine.py lines 155-172). -/
def searchItems (analyze : DetectedEntity → Except String ContextAnalysisResult)
    (req : ContextSearchRequest) : List RefinedEntity :=
  req.previous_detections.foldl
    (fun refined_entities entity =>
      match analyze entity with
      | Except.error _ => refined_entities
      | Except.ok ar =>
        let refined_entity := analyze_entity req.text entity req.confidence_threshold ar
        if refined_entity.is_validated then refined_entities ++ [refined_entity]
        else refined_entities)
    []

/-- `search` (engine.py lines 125-206): the response carries the validated
items and the summary generated from them (line 198). -/
def search (analyze : DetectedEntity → Except String ContextAnalysisResult)
    (req : ContextSearchRequest) : ContextSearchResponse :=
  let items := searchItems analyze req
  { items := items, summary := generate_summary items }

lemma searchItems_go (analyze : DetectedEntity → Except String ContextAnalysisResult)
    (text : String) (thr : ℚ) :
    ∀ (l : List DetectedEntity) (acc : List RefinedEntity),
      l.foldl
        (fun refined_entities entity =>
          match analyze entity with
          | Except.error _ => refined_entities
          | Except.ok ar =>
            let refined_entity := analyze_entity text entity thr ar
            if refined_entity.is_validated then refined_entities ++ [refined_entity]
            else refined_entities)
        acc
      = acc ++ (l.filterMap (fun entity =>
          match analyze entity with
          | Except.ok ar => some (analyze_entity text entity thr ar)
          | Except.error _ => none)).filter (fun re => re.is_validated) := by
  intro l
  induction l with
  | nil => intro acc; simp
  | cons e l' ih =>
    intro acc
    simp only [List.foldl_cons, List.filterMap_cons]
    cases hae : analyze e with
    | error err => simp only [hae, ih]
    | ok ar =>
      by_cases hv : (analyze_entity text e thr ar).is_validated = true
      · simp only [hae, hv, if_true, ih, List.filter_cons, List.append_assoc,
          List.singleton_append]
      · simp only [hae, ih, List.filter_cons, hv, if_false]
        simp

lemma searchItems_eq_filter (analyze : DetectedEntity → Except String ContextAnalysisResult)
    (req : ContextSearchRequest) :
    searchItems analyze req =
      (req.previous_detections.filterMap (fun entity =>
          match analyze entity with
          | Except.ok ar => some (analyze_entity req.text entity req.confidence_threshold ar)
          | Except.error _ => none)).filter (fun re => re.is_validated) := by
  unfold searchItems
  simpa using searchItems_go analyze req.text req.confidence_threshold
    req.previous_detections []

/-- C7: an analyzed entity is validated exactly when the fused verdict is
genuine PII, the refined probability reaches the callers threshold, and the
analysis confidence reaches the 0.4 floor; and the items of the search are
exactly the analyzed entities that are validated. -/
theorem validation_gate_and_items
    (analyze : DetectedEntity → Except String ContextAnalysisResult)
    (req : ContextSearchRequest) :
    searchItems analyze req =
      (req.previous_detections.filterMap (fun entity =>
          match analyze entity with
          | Except.ok ar => some (analyze_entity req.text entity req.confidence_threshold ar)
          | Except.error _ => none)).filter (fun re => re.is_validated) ∧
    ∀ (text : String) (e : DetectedEntity) (thr : ℚ) (ar : ContextAnalysisResult),
      (analyze_entity text e thr ar).is_validated = true ↔
        (ar.is_genuine_pii = true ∧
         thr ≤ (analyze_entity text e thr ar).refined_probability ∧
         mkRat 2 5 ≤ ar.confidence) := by
  refine ⟨searchItems_eq_filter analyze req, ?_⟩
  intro text e thr ar
  simp [analyze_entity, Bool.and_eq_true, decide_eq_true_eq, and_assoc]

/-- C10: every item of a search response is validated, hence the generated
summary reports zero falsePositivesFiltered and totalItems equal to the
number of items, regardless of how many detections were filtered out before
the response was built. -/
theorem search_summary_hides_filtering
    (analyze : DetectedEntity → Except String ContextAnalysisResult)
    (req : ContextSearchRequest) :
    (∀ it ∈ (search analyze req).items, it.is_validated = true) ∧
    (search analyze req).summary.falsePositivesFiltered = 0 ∧
    (search analyze req).summary.totalItems = (search analyze req).items.length := by
  have hall : ∀ it ∈ searchItems analyze req, it.is_validated = true := by
    intro it hit
    rw [searchItems_eq_filter] at hit
    exact List.of_mem_filter hit
  have hitems : (search analyze req).items = searchItems analyze req := rfl
  have hsummary : (search analyze req).summary = generate_summary (searchItems analyze req) := rfl
  rw [hitems, hsummary]
  refine ⟨hall, ?_, ?_⟩
  all_goals {
    by_cases hnil : searchItems analyze req = []
    · simp [generate_summary, hnil]
    · have hfilter : (searchItems analyze req).filter (fun item => item.is_validated)
          = searchItems analyze req :=
        List.filter_eq_self.mpr (fun a ha => hall a ha)
      simp [generate_summary, hnil, hfilter]
  }

/-! ### Keyword fallback of the LLM response parser (claim C9)

`analyze_json` (ollama_client.py lines 180-242): after direct JSON parsing
and all four pattern extractions fail, lines 216-238 build a default dict
from keyword heuristics.  The fallback body is modelled on the raw response
text as a character list.  `str.lower` is modelled for ASCII (the keywords
searched are ASCII), and the Python `in` substring test as list infixes.
The regex `confidence[:\s]*([0-9]+(?:\.[0-9]+)?)` with IGNORECASE is
unfolded: at the first position where `confidence` matches case
insensitively and is followed by a run of colon/whitespace separators and a
digit, the greedy decimal number is read.  Separator and digit classes are
disjoint, so the backtracking of `[:\s]*` coincides with maximal munch. -/

def lowerChars (s : List Char) : List Char := s.map Char.toLower

def kwGenuine : List Char := "genuine".toList

def kwReal : List Char := "real".toList

def kwPersonal : List Char := "personal".toList

def confKw : List Char := "confidence".toList

/-- Python regex `[:\s]` over ASCII. -/
def isSepChar (c : Char) : Bool :=
  c = ':' || c = ' ' || c = '\t' || c = '\n' || c = '\r' || c = '\x0b' || c = '\x0c'

def digitsToNat (l : List Char) : Nat :=
  l.foldl (fun n c => n * 10 + (c.toNat - 48)) 0

/-- Reads the regex group `[0-9]+(?:\.[0-9]+)?` greedily at the head of `t`
(the caller guarantees a leading digit) and converts it as Python
`float(...)` does, exactly in ℚ. -/
def parseConfNumber (t : List Char) : ℚ :=
  let intPart := t.takeWhile Char.isDigit
  match t.drop intPart.length with
  | '.' :: u =>
    let frac := u.takeWhile Char.isDigit
    if frac = [] then (digitsToNat intPart : ℚ)
    else (digitsToNat intPart : ℚ) + (digitsToNat frac : ℚ) / ((10 : ℚ) ^ frac.length)
  | _ => (digitsToNat intPart : ℚ)

/-- Attempts the confidence pattern anchored at the start of `s`. -/
def confMatchAt (s : List Char) : Option ℚ :=
  if lowerChars (s.take confKw.length) = confKw then
    match (s.drop confKw.length).dropWhile isSepChar with
    | c :: rest => if c.isDigit then some (parseConfNumber (c :: rest)) else none
    | [] => none
  else none

/-- `re.search` of the confidence pattern: first matching position wins. -/
def findConfidence : List Char → Option ℚ
  | [] => none
  | c :: rest =>
    match confMatchAt (c :: rest) with
    | some v => some v
    | none => findConfidence rest

structure FallbackDict where
  is_genuine_pii : Bool
  confidence : ℚ
  reason : String
  risk_level : String
  raw_response : List Char
  deriving DecidableEq, Repr

/-- The last-resort branch of `analyze_json` (ollama_client.py lines
216-238). -/
def keyword_fallback (response_text : List Char) : FallbackDict :=
  let lower := lowerChars response_text
  let is_genuine := decide (List.IsInfix kwGenuine lower)
    || decide (List.IsInfix kwReal lower) || decide (List.IsInfix kwPersonal lower)
  let confidence : ℚ :=
    match findConfidence response_text with
    | some v => if 1 < v then v / 100 else v
    | none => mkRat 1 2
  { is_genuine_pii := is_genuine, confidence := confidence,
    reason := "Parsed from non-JSON response", risk_level := "medium",
    raw_response := response_text }

/-- C9: the fallback marks the response as genuine PII exactly when the
lowercased text contains genuine, real or personal; a stated numeric
confidence is normalized by a single division by 100 when above 1.0 and is
used as-is otherwise, with 0.5 the default when no confidence is stated. -/
theorem keyword_fallback_spec (response_text : List Char) :
    ((keyword_fallback response_text).is_genuine_pii = true ↔
       (List.IsInfix kwGenuine (lowerChars response_text) ∨
        List.IsInfix kwReal (lowerChars response_text) ∨
        List.IsInfix kwPersonal (lowerChars response_text))) ∧
    (findConfidence response_text = none →
       (keyword_fallback response_text).confidence = mkRat 1 2) ∧
    (∀ v, findConfidence response_text = some v →
       (keyword_fallback response_text).confidence = if 1 < v then v / 100 else v) := by
  refine ⟨?_, ?_, ?_⟩
  · simp [keyword_fallback, Bool.or_eq_true, decide_eq_true_eq, or_assoc]
  · intro hnone
    simp [keyword_fallback, hnone]
  · intro v hv
    simp [keyword_fallback, hv]

def c9ex : List Char := "the value is real with Confidence: 250".toList

/-- Witness for C9: a response stating a percentage confidence and a
keyword. -/
theorem keyword_fallback_spec_witness :
    (keyword_fallback c9ex).is_genuine_pii = true ∧
    (keyword_fallback c9ex).confidence = 5 / 2 := by
  have h := keyword_fallback_spec c9ex
  constructor
  · exact h.1.mpr (Or.inr (Or.inl (by decide)))
  · have hfind : findConfidence c9ex = some 250 := by decide
    rw [h.2.2 250 hfind, if_pos (by norm_num)]
    norm_num

end PiiSearch
